import Mathlib

/-!
Verification of the real-time analytics core of the markdown-site repository:
page-view deduplication (`recordPageView`), session heartbeats (`heartbeat`),
the stale-session reaper (`cleanupStaleSessions`), the client heartbeat guard
(`sendHeartbeat`) and the session identity helper (`getSessionId`), as given
in the "How stats work" document of the repository.

Timestamps are modelled as integers (milliseconds, `Date.now()`), the two
durable tables as lists of records in insertion order.  Index lookups are
modelled as list searches: `by_session_path ... order("desc").first()` is the
most recently inserted event for the key, `by_sessionId ... first()` is the
first record in the table with the given session id, and `ctx.db.patch` on
that record replaces it in place.
-/

/-- `DEDUP_WINDOW_MS`: 30 minutes, page view deduplication window. -/
def DEDUP_WINDOW_MS : Int := 30 * 60 * 1000

/-- `SESSION_TIMEOUT_MS`: 2 minutes, active session expiry. -/
def SESSION_TIMEOUT_MS : Int := 2 * 60 * 1000

/-- `HEARTBEAT_DEDUP_MS`: 10 seconds, backend idempotency window. -/
def HEARTBEAT_DEDUP_MS : Int := 10 * 1000

/-- `HEARTBEAT_INTERVAL_MS`: 30 seconds, client heartbeat frequency. -/
def HEARTBEAT_INTERVAL_MS : Int := 30 * 1000

/-- `HEARTBEAT_DEBOUNCE_MS`: 5 seconds, frontend debounce window. -/
def HEARTBEAT_DEBOUNCE_MS : Int := 5 * 1000

/-- A row of the `pageViews` table. -/
structure ViewEvent where
  path : String
  pageType : String
  sessionId : String
  timestamp : Int
  deriving Repr, DecidableEq

/-- A row of the `activeSessions` table. -/
structure SessionRecord where
  sessionId : String
  currentPath : String
  lastSeen : Int
  deriving Repr, DecidableEq

/-- The rows of `pageViews` matching the `by_session_path` index key
`(sessionId, path)`, in insertion order. -/
def viewsFor (sessionId path : String) (events : List ViewEvent) : List ViewEvent :=
  events.filter (fun e => e.sessionId == sessionId && e.path == path)

/-- The query `ctx.db.query("pageViews").withIndex("by_session_path", ...)
.order("desc").first()` of `recordPageView`: the most recently inserted
event for `(sessionId, path)`. -/
def latestViewFor (sessionId path : String) (events : List ViewEvent) : Option ViewEvent :=
  (viewsFor sessionId path events).getLast?

/-- The `recordPageView` mutation of `convex/stats.ts`: look up the most
recent view for `(sessionId, path)`; if one exists with
`timestamp > Date.now() - DEDUP_WINDOW_MS`, return without writing,
otherwise insert a new event stamped `now`. -/
def recordPageView (now : Int) (path pageType sessionId : String)
    (events : List ViewEvent) : List ViewEvent :=
  let dedupCutoff := now - DEDUP_WINDOW_MS
  match latestViewFor sessionId path events with
  | some recentView =>
    if recentView.timestamp > dedupCutoff then
      events
    else
      events ++ [⟨path, pageType, sessionId, now⟩]
  | none => events ++ [⟨path, pageType, sessionId, now⟩]

/-- The query `ctx.db.query("activeSessions").withIndex("by_sessionId", ...)
.first()` of `heartbeat`: the first record in the table with the given
session id. -/
def findSession (sessionId : String) (sessions : List SessionRecord) :
    Option SessionRecord :=
  sessions.find? (fun r => r.sessionId == sessionId)

/-- `ctx.db.patch(existingSession._id, ...)`: replace the record found by
`findSession` (the first one with the given session id) in place. -/
def patchFirst (sessions : List SessionRecord) (sessionId : String)
    (newRec : SessionRecord) : List SessionRecord :=
  match sessions with
  | [] => []
  | r :: rest =>
    if r.sessionId == sessionId then newRec :: rest
    else r :: patchFirst rest sessionId newRec

/-- The `heartbeat` mutation of `convex/stats.ts`: look up the session; if
found with the same `currentPath` and `now - lastSeen < HEARTBEAT_DEDUP_MS`,
return without mutating; if found otherwise, patch `currentPath` and
`lastSeen`; if not found, insert a new record. -/
def heartbeat (now : Int) (sessionId currentPath : String)
    (sessions : List SessionRecord) : List SessionRecord :=
  match findSession sessionId sessions with
  | some existingSession =>
    if existingSession.currentPath == currentPath
        && decide (now - existingSession.lastSeen < HEARTBEAT_DEDUP_MS) then
      sessions
    else
      patchFirst sessions sessionId
        { existingSession with currentPath := currentPath, lastSeen := now }
  | none => sessions ++ [⟨sessionId, currentPath, now⟩]

/-- Whether a `heartbeat` call at `now` hits the early-return guard
(same path, updated less than `HEARTBEAT_DEDUP_MS` ago). -/
def heartbeatIsNoOp (now : Int) (sessionId currentPath : String)
    (sessions : List SessionRecord) : Bool :=
  match findSession sessionId sessions with
  | some existingSession =>
    existingSession.currentPath == currentPath
      && decide (now - existingSession.lastSeen < HEARTBEAT_DEDUP_MS)
  | none => false

/-- A sequence of `heartbeat` calls `(now, sessionId, currentPath)`
executed sequentially against the store. -/
def runHeartbeats (calls : List (Int × String × String))
    (sessions : List SessionRecord) : List SessionRecord :=
  calls.foldl (fun acc c => heartbeat c.1 c.2.1 c.2.2 acc) sessions

/-- The `cleanupStaleSessions` mutation: select all records with
`lastSeen < Date.now() - SESSION_TIMEOUT_MS` and delete them. -/
def cleanupStaleSessions (now : Int) (sessions : List SessionRecord) :
    List SessionRecord :=
  let cutoff := now - SESSION_TIMEOUT_MS
  sessions.filter (fun s => !(decide (s.lastSeen < cutoff)))

/-- `cleanupStaleSessions` when individual deletes may fail.  The mutation
runs `await Promise.all(staleSessions.map((s) => ctx.db.delete(s._id)))`:
the `map` dispatches every delete before any is awaited, so each qualifying
record is deleted independently of the others; a record survives the run
iff it is not stale or its own delete failed (`deleteFails`). -/
def cleanupStaleSessionsPartial (now : Int) (deleteFails : SessionRecord → Bool)
    (sessions : List SessionRecord) : List SessionRecord :=
  let cutoff := now - SESSION_TIMEOUT_MS
  sessions.filter (fun s => !(decide (s.lastSeen < cutoff)) || deleteFails s)

/-- At most one `activeSessions` row per session id. -/
def uniquePerSession (sessions : List SessionRecord) : Prop :=
  List.Pairwise (fun a b => a.sessionId ≠ b.sessionId) sessions

instance (sessions : List SessionRecord) : Decidable (uniquePerSession sessions) := by
  unfold uniquePerSession; infer_instance

/-- The `lastSeen` of the record `heartbeat` sees for `sessionId`. -/
def lookupLastSeen (sessionId : String) (sessions : List SessionRecord) :
    Option Int :=
  (findSession sessionId sessions).map (fun r => r.lastSeen)

/-- `getSessionId` of `usePageTracking.ts`: read the stored id; if it is
falsy (absent or the empty string) generate a fresh one and store it;
return the id together with the storage cell afterwards. -/
def getSessionId (storage : Option String) (fresh : String) :
    String × Option String :=
  match storage with
  | some sessionId =>
    if sessionId == "" then (fresh, some fresh) else (sessionId, storage)
  | none => (fresh, some fresh)

/-- JavaScript truthiness of `string | null`: `!x` holds for `null` and `""`. -/
def isFalsyStr : Option String → Bool
  | none => true
  | some s => s == ""

/-- The client heartbeat guard refs of `usePageTracking.ts`. -/
structure HeartbeatState where
  isHeartbeatPending : Bool
  lastHeartbeatTime : Int
  lastHeartbeatPath : Option String
  deriving Repr, DecidableEq

/-- The guard section of `sendHeartbeat`: skip if the session id is falsy,
if a heartbeat is pending, or if the same path was sent less than
`HEARTBEAT_DEBOUNCE_MS` ago; otherwise set the three refs and issue the
call.  Returns whether the network call is issued and the refs afterwards. -/
def sendHeartbeat (now : Int) (sessionIdRef : Option String) (path : String)
    (st : HeartbeatState) : Bool × HeartbeatState :=
  if isFalsyStr sessionIdRef then (false, st)
  else if st.isHeartbeatPending then (false, st)
  else if st.lastHeartbeatPath == some path
      && decide (now - st.lastHeartbeatTime < HEARTBEAT_DEBOUNCE_MS) then
    (false, st)
  else
    (true, { isHeartbeatPending := true, lastHeartbeatTime := now,
             lastHeartbeatPath := some path })

/-- The `finally` block of `sendHeartbeat`: on completion — success or
failure (`success`), exceptions swallowed by the empty `catch` — clear the
pending ref. -/
def finishHeartbeat (_success : Bool) (st : HeartbeatState) : HeartbeatState :=
  { st with isHeartbeatPending := false }

/-! ### Helper lemmas about the pageViews store -/

theorem viewsFor_append_match (s p : String) (ev : List ViewEvent) (e : ViewEvent)
    (hs : e.sessionId = s) (hp : e.path = p) :
    viewsFor s p (ev ++ [e]) = viewsFor s p ev ++ [e] := by
  simp [viewsFor, List.filter_append, hs, hp]

theorem recordPageView_noop (now : Int) (p pt s : String) (ev : List ViewEvent)
    (e : ViewEvent) (hlast : latestViewFor s p ev = some e)
    (ht : now - DEDUP_WINDOW_MS < e.timestamp) :
    recordPageView now p pt s ev = ev := by
  unfold recordPageView
  rw [hlast]
  simp [ht]

theorem recordPageView_insert_of_none (now : Int) (p pt s : String)
    (ev : List ViewEvent) (hlast : latestViewFor s p ev = none) :
    recordPageView now p pt s ev = ev ++ [⟨p, pt, s, now⟩] := by
  unfold recordPageView
  rw [hlast]

theorem recordPageView_insert_of_old (now : Int) (p pt s : String)
    (ev : List ViewEvent) (e : ViewEvent) (hlast : latestViewFor s p ev = some e)
    (ht : e.timestamp ≤ now - DEDUP_WINDOW_MS) :
    recordPageView now p pt s ev = ev ++ [⟨p, pt, s, now⟩] := by
  unfold recordPageView
  rw [hlast]
  simp
  omega

/-- If the only stored view for the key was written at `t0`, any further call
strictly within the dedup window of `t0` leaves the store untouched. -/
theorem recordPageView_noop_of_single (t0 now : Int) (p pt0 pt s : String)
    (ev : List ViewEvent)
    (hv : viewsFor s p ev = [⟨p, pt0, s, t0⟩])
    (h2 : now < t0 + DEDUP_WINDOW_MS) :
    recordPageView now p pt s ev = ev := by
  apply recordPageView_noop now p pt s ev ⟨p, pt0, s, t0⟩
  · rw [latestViewFor, hv]
    rfl
  · show now - DEDUP_WINDOW_MS < t0
    omega

/-- A sequence of `recordPageView` calls `(now, pageType)` for a fixed
`(path, sessionId)` executed sequentially against the store. -/
def runPageViews (path sessionId : String) (calls : List (Int × String))
    (events : List ViewEvent) : List ViewEvent :=
  calls.foldl (fun acc c => recordPageView c.1 path c.2 sessionId acc) events

/-- C1: View dedup idempotence — starting from a store with no view for
`(sessionId, path)`, a first `recordPageView` call at `t0` followed by any
sequence of calls for the same key at times in `[t0, t0 + DEDUP_WINDOW_MS)`
leaves exactly one stored ViewEvent for that key: the one inserted by the
first call; every later call in the window is a no-op. -/
theorem view_dedup_idempotent (t0 : Int) (p pt0 s : String)
    (calls : List (Int × String)) (ev : List ViewEvent)
    (h0 : viewsFor s p ev = [])
    (hts : ∀ c ∈ calls, t0 ≤ c.1 ∧ c.1 < t0 + DEDUP_WINDOW_MS) :
    viewsFor s p (runPageViews p s calls (recordPageView t0 p pt0 s ev))
      = [⟨p, pt0, s, t0⟩] := by
  have h1 : recordPageView t0 p pt0 s ev = ev ++ [⟨p, pt0, s, t0⟩] :=
    recordPageView_insert_of_none t0 p pt0 s ev (by rw [latestViewFor, h0]; rfl)
  have hv1 : viewsFor s p (recordPageView t0 p pt0 s ev) = [⟨p, pt0, s, t0⟩] := by
    rw [h1, viewsFor_append_match s p ev _ rfl rfl, h0]
    rfl
  suffices h : runPageViews p s calls (recordPageView t0 p pt0 s ev)
      = recordPageView t0 p pt0 s ev by
    rw [h, hv1]
  induction calls with
  | nil => rfl
  | cons c rest ih =>
    show runPageViews p s rest (recordPageView c.1 p c.2 s (recordPageView t0 p pt0 s ev))
      = recordPageView t0 p pt0 s ev
    rw [recordPageView_noop_of_single t0 c.1 p pt0 c.2 s _ hv1 (hts c (List.mem_cons_self c rest)).2]
    exact ih (fun c' hc' => hts c' (List.mem_cons_of_mem _ hc'))

/-- C1 witness: views of `/docs` by session `s1` at `t = 0`, `t = 10` minutes
and `t = 29:59.999` leave exactly one stored event, stamped `t = 0`. -/
theorem view_dedup_idempotent_witness :
    viewsFor "s1" "/docs"
      (runPageViews "/docs" "s1" [((600000 : Int), "page"), (1799999, "page")]
        (recordPageView 0 "/docs" "page" "s1" []))
      = [⟨"/docs", "page", "s1", 0⟩] :=
  view_dedup_idempotent 0 "/docs" "page" "s1" [(600000, "page"), (1799999, "page")] []
    (by decide) (by decide)

/-- C6: Window boundary — after a first call at `t0` inserts, a second call
for the same `(path, sessionId)` at `t0 + DEDUP_WINDOW_MS + ε` with `ε > 0`
and no intervening calls inserts again: two ViewEvents are stored. -/
theorem view_window_boundary (t0 eps : Int) (p pt1 pt2 s : String)
    (ev : List ViewEvent) (h0 : viewsFor s p ev = []) (heps : 0 < eps) :
    viewsFor s p
      (recordPageView (t0 + DEDUP_WINDOW_MS + eps) p pt2 s
        (recordPageView t0 p pt1 s ev))
      = [⟨p, pt1, s, t0⟩, ⟨p, pt2, s, t0 + DEDUP_WINDOW_MS + eps⟩] := by
  have h1 : recordPageView t0 p pt1 s ev = ev ++ [⟨p, pt1, s, t0⟩] :=
    recordPageView_insert_of_none t0 p pt1 s ev (by rw [latestViewFor, h0]; rfl)
  have hv1 : viewsFor s p (recordPageView t0 p pt1 s ev) = [⟨p, pt1, s, t0⟩] := by
    rw [h1, viewsFor_append_match s p ev _ rfl rfl, h0]
    rfl
  have h2 : recordPageView (t0 + DEDUP_WINDOW_MS + eps) p pt2 s
      (recordPageView t0 p pt1 s ev)
      = recordPageView t0 p pt1 s ev ++ [⟨p, pt2, s, t0 + DEDUP_WINDOW_MS + eps⟩] := by
    apply recordPageView_insert_of_old _ _ _ _ _ ⟨p, pt1, s, t0⟩
    · rw [latestViewFor, hv1]; rfl
    · show t0 ≤ t0 + DEDUP_WINDOW_MS + eps - DEDUP_WINDOW_MS
      omega
  rw [h2, viewsFor_append_match s p (recordPageView t0 p pt1 s ev)
    ⟨p, pt2, s, t0 + DEDUP_WINDOW_MS + eps⟩ rfl rfl, hv1]
  rfl

/-- C6 witness: with `ε = 1 ms` past the 30-minute window, session `s1`
viewing `/docs` at `t = 0` and `t = 30 min + 1 ms` stores two events. -/
theorem view_window_boundary_witness :
    viewsFor "s1" "/docs"
      (recordPageView (0 + DEDUP_WINDOW_MS + 1) "/docs" "page" "s1"
        (recordPageView 0 "/docs" "page" "s1" []))
      = [⟨"/docs", "page", "s1", 0⟩, ⟨"/docs", "page", "s1", 0 + DEDUP_WINDOW_MS + 1⟩] :=
  view_window_boundary 0 1 "/docs" "page" "page" "s1" [] (by decide) (by decide)

/-- C8: Exact-boundary behavior — when the most recent stored view for the
key has `timestamp = now - DEDUP_WINDOW_MS` exactly, the strict comparison
`timestamp > dedupCutoff` fails, so the call is not a duplicate and inserts
a second event. -/
theorem view_exact_boundary (now : Int) (p pt s : String) (ev : List ViewEvent)
    (e : ViewEvent) (hlast : latestViewFor s p ev = some e)
    (ht : e.timestamp = now - DEDUP_WINDOW_MS) :
    recordPageView now p pt s ev = ev ++ [⟨p, pt, s, now⟩]
    ∧ viewsFor s p (recordPageView now p pt s ev)
        = viewsFor s p ev ++ [⟨p, pt, s, now⟩] := by
  have h := recordPageView_insert_of_old now p pt s ev e hlast (le_of_eq ht)
  exact ⟨h, by rw [h, viewsFor_append_match s p ev ⟨p, pt, s, now⟩ rfl rfl]⟩

/-- C8 witness: a stored view at `t = 0` and a call at exactly
`t = DEDUP_WINDOW_MS` produce a second stored event. -/
theorem view_exact_boundary_witness :
    recordPageView DEDUP_WINDOW_MS "/docs" "page" "s1"
        [⟨"/docs", "page", "s1", 0⟩]
      = [⟨"/docs", "page", "s1", 0⟩, ⟨"/docs", "page", "s1", DEDUP_WINDOW_MS⟩]
    ∧ viewsFor "s1" "/docs"
        (recordPageView DEDUP_WINDOW_MS "/docs" "page" "s1"
          [⟨"/docs", "page", "s1", 0⟩])
      = viewsFor "s1" "/docs" [⟨"/docs", "page", "s1", 0⟩]
        ++ [⟨"/docs", "page", "s1", DEDUP_WINDOW_MS⟩] :=
  view_exact_boundary DEDUP_WINDOW_MS "/docs" "page" "s1"
    [⟨"/docs", "page", "s1", 0⟩] ⟨"/docs", "page", "s1", 0⟩ (by decide) (by decide)

/-! ### Helper lemmas about the activeSessions store -/

theorem findSession_cons (r : SessionRecord) (rest : List SessionRecord)
    (sid : String) :
    findSession sid (r :: rest)
      = if r.sessionId == sid then some r else findSession sid rest := by
  unfold findSession
  rw [List.find?_cons]
  cases h : (r.sessionId == sid) <;> simp

theorem findSession_patchFirst_self (st : List SessionRecord) (sid : String)
    (newRec ex : SessionRecord) (hnew : newRec.sessionId = sid)
    (hex : findSession sid st = some ex) :
    findSession sid (patchFirst st sid newRec) = some newRec := by
  induction st with
  | nil => simp [findSession] at hex
  | cons r rest ih =>
    unfold patchFirst
    by_cases h : (r.sessionId == sid) = true
    · rw [if_pos h, findSession_cons]
      rw [if_pos (by simp [hnew])]
    · rw [if_neg h]
      rw [findSession_cons] at hex
      rw [if_neg h] at hex
      rw [findSession_cons, if_neg h]
      exact ih hex

theorem findSession_patchFirst_ne (st : List SessionRecord) (s sid : String)
    (newRec : SessionRecord) (hne : sid ≠ s) (hnew : newRec.sessionId = s) :
    findSession sid (patchFirst st s newRec) = findSession sid st := by
  induction st with
  | nil => rfl
  | cons r rest ih =>
    unfold patchFirst
    by_cases h : (r.sessionId == s) = true
    · rw [if_pos h]
      have hr : r.sessionId = s := by simpa using h
      rw [findSession_cons, findSession_cons]
      rw [if_neg (by simp [hnew]; exact Ne.symm hne),
        if_neg (by simp [hr]; exact Ne.symm hne)]
    · rw [if_neg h]
      rw [findSession_cons, findSession_cons, ih]

theorem mem_patchFirst (st : List SessionRecord) (sid : String)
    (newRec x : SessionRecord) (hx : x ∈ patchFirst st sid newRec) :
    x ∈ st ∨ x = newRec := by
  induction st with
  | nil => simp [patchFirst] at hx
  | cons r rest ih =>
    unfold patchFirst at hx
    by_cases h : (r.sessionId == sid) = true
    · rw [if_pos h] at hx
      rcases List.mem_cons.mp hx with h1 | h2
      · right; exact h1
      · left; exact List.mem_cons_of_mem _ h2
    · rw [if_neg h] at hx
      rcases List.mem_cons.mp hx with h1 | h2
      · left; simp [h1]
      · rcases ih h2 with h3 | h3
        · left; exact List.mem_cons_of_mem _ h3
        · right; exact h3

/-- An unfolding of `heartbeat` into its three outcomes. -/
theorem heartbeat_cases (now : Int) (s p : String) (st : List SessionRecord) :
    (∃ ex, findSession s st = some ex
        ∧ (ex.currentPath == p && decide (now - ex.lastSeen < HEARTBEAT_DEDUP_MS)) = true
        ∧ heartbeat now s p st = st)
    ∨ (∃ ex, findSession s st = some ex
        ∧ (ex.currentPath == p && decide (now - ex.lastSeen < HEARTBEAT_DEDUP_MS)) = false
        ∧ heartbeat now s p st
            = patchFirst st s { ex with currentPath := p, lastSeen := now })
    ∨ (findSession s st = none
        ∧ heartbeat now s p st = st ++ [⟨s, p, now⟩]) := by
  cases hf : findSession s st with
  | none =>
    right; right
    exact ⟨rfl, by unfold heartbeat; rw [hf]⟩
  | some ex =>
    cases hg : (ex.currentPath == p && decide (now - ex.lastSeen < HEARTBEAT_DEDUP_MS)) with
    | true =>
      left
      refine ⟨ex, rfl, hg, ?_⟩
      unfold heartbeat
      rw [hf]
      show (if (ex.currentPath == p && decide (now - ex.lastSeen < HEARTBEAT_DEDUP_MS)) = true
        then st else patchFirst st s { ex with currentPath := p, lastSeen := now }) = st
      rw [if_pos hg]
    | false =>
      right; left
      refine ⟨ex, rfl, hg, ?_⟩
      unfold heartbeat
      rw [hf]
      show (if (ex.currentPath == p && decide (now - ex.lastSeen < HEARTBEAT_DEDUP_MS)) = true
        then st else patchFirst st s { ex with currentPath := p, lastSeen := now })
        = patchFirst st s { ex with currentPath := p, lastSeen := now }
      rw [if_neg (by simp [hg])]

/-- If a `heartbeat` call is not short-circuited, afterwards `findSession`
returns the record it wrote: session id, the reported path, `lastSeen = now`. -/
theorem findSession_heartbeat_self (now : Int) (s p : String)
    (st : List SessionRecord) (h : heartbeatIsNoOp now s p st = false) :
    findSession s (heartbeat now s p st) = some ⟨s, p, now⟩ := by
  unfold heartbeatIsNoOp at h
  rcases heartbeat_cases now s p st with ⟨ex, hf, hg, hb⟩ | ⟨ex, hf, hg, hb⟩ | ⟨hf, hb⟩
  · rw [hf] at h
    exact Bool.noConfusion ((show (ex.currentPath == p
      && decide (now - ex.lastSeen < HEARTBEAT_DEDUP_MS)) = false from h).symm.trans hg)
  · rw [hb]
    have hsid : ex.sessionId = s := by
      have := List.find?_some hf
      simpa using this
    have := findSession_patchFirst_self st s
      { ex with currentPath := p, lastSeen := now } ex (by simpa using hsid) hf
    rw [this, hsid]
  · rw [hb]
    unfold findSession at hf ⊢
    rw [List.find?_append, hf]
    simp

/-- A short-circuited `heartbeat` call returns the store unchanged. -/
theorem heartbeat_noop_eq (now : Int) (s p : String) (st : List SessionRecord)
    (h : heartbeatIsNoOp now s p st = true) : heartbeat now s p st = st := by
  unfold heartbeatIsNoOp at h
  rcases heartbeat_cases now s p st with ⟨ex, hf, hg, hb⟩ | ⟨ex, hf, hg, hb⟩ | ⟨hf, hb⟩
  · exact hb
  · rw [hf] at h
    exact Bool.noConfusion (hg.symm.trans (show (ex.currentPath == p
      && decide (now - ex.lastSeen < HEARTBEAT_DEDUP_MS)) = true from h))
  · rw [hf] at h
    exact Bool.noConfusion (show false = true from h)

/-- C3: Heartbeat short-circuit idempotence — if a `heartbeat(s, p)` call at
`t1` performs a write (it is not itself short-circuited) and `heartbeat(s, p)`
runs again at `t2` with `t2 - t1 < HEARTBEAT_DEDUP_MS`, the second call
performs no write: the store after both calls is identical to the store after
the first call alone, and the session's `lastSeen` is the value `t1` set by
the first call. -/
theorem heartbeat_short_circuit (t1 t2 : Int) (s p : String)
    (st : List SessionRecord)
    (hfirst : heartbeatIsNoOp t1 s p st = false)
    (hwin : t2 - t1 < HEARTBEAT_DEDUP_MS) :
    heartbeat t2 s p (heartbeat t1 s p st) = heartbeat t1 s p st
    ∧ lookupLastSeen s (heartbeat t1 s p st) = some t1 := by
  have hfind := findSession_heartbeat_self t1 s p st hfirst
  constructor
  · apply heartbeat_noop_eq
    unfold heartbeatIsNoOp
    rw [hfind]
    simp [hwin]
  · rw [lookupLastSeen, hfind]
    rfl

/-- C3 witness: session `s1` heartbeats `/blog/a` at `t = 0` into an empty
store, then again at `t = 5` seconds: the second call is a no-op and
`lastSeen` stays `0`. -/
theorem heartbeat_short_circuit_witness :
    heartbeat 5000 "s1" "/blog/a" (heartbeat 0 "s1" "/blog/a" [])
      = heartbeat 0 "s1" "/blog/a" []
    ∧ lookupLastSeen "s1" (heartbeat 0 "s1" "/blog/a" []) = some 0 :=
  heartbeat_short_circuit 0 5000 "s1" "/blog/a" [] (by decide) (by decide)

/-- `heartbeat` preserves the at-most-one-record-per-session invariant. -/
theorem heartbeat_preserves_unique (now : Int) (s p : String)
    (st : List SessionRecord) (h : uniquePerSession st) :
    uniquePerSession (heartbeat now s p st) := by
  rcases heartbeat_cases now s p st with ⟨ex, hf, hg, hb⟩ | ⟨ex, hf, hg, hb⟩ | ⟨hf, hb⟩
  · rw [hb]; exact h
  · rw [hb]
    have hsid : ex.sessionId = s := by
      have := List.find?_some hf
      simpa using this
    clear hf hg hb
    induction st with
    | nil => exact h
    | cons r rest ih =>
      unfold uniquePerSession at h ⊢
      rw [List.pairwise_cons] at h
      obtain ⟨hr, hrest⟩ := h
      unfold patchFirst
      by_cases hc : (r.sessionId == s) = true
      · rw [if_pos hc]
        rw [List.pairwise_cons]
        refine ⟨?_, hrest⟩
        intro b hb
        show ex.sessionId ≠ b.sessionId
        rw [hsid, ← (show r.sessionId = s by simpa using hc)]
        exact hr b hb
      · rw [if_neg hc]
        rw [List.pairwise_cons]
        refine ⟨?_, ih hrest⟩
        intro b hb
        rcases mem_patchFirst rest s _ b hb with h1 | h1
        · exact hr b h1
        · rw [h1]
          show r.sessionId ≠ ex.sessionId
          rw [hsid]
          intro hcontr
          exact hc (by simp [hcontr])
  · rw [hb]
    unfold uniquePerSession at h ⊢
    rw [List.pairwise_append]
    refine ⟨h, List.pairwise_singleton _ _, ?_⟩
    intro a ha b hb
    rw [List.mem_singleton.mp hb]
    show a.sessionId ≠ s
    intro hcontr
    have := List.find?_eq_none.mp hf a ha
    exact this (by simp [hcontr])

/-- C2: Heartbeat upsert uniqueness — starting from a store with at most one
SessionRecord per session id, any sequence of `heartbeat` calls executed
sequentially leaves at most one SessionRecord per session id. -/
theorem heartbeat_upsert_unique (calls : List (Int × String × String))
    (st : List SessionRecord) (h : uniquePerSession st) :
    uniquePerSession (runHeartbeats calls st) := by
  induction calls generalizing st with
  | nil => exact h
  | cons c rest ih =>
    exact ih (heartbeat c.1 c.2.1 c.2.2 st) (heartbeat_preserves_unique c.1 c.2.1 c.2.2 st h)

/-- C2 witness: four heartbeats from two sessions against an empty store
leave at most one record per session. -/
theorem heartbeat_upsert_unique_witness :
    uniquePerSession (runHeartbeats
      [(0, "s1", "/a"), (5000, "s1", "/a"), (31000, "s1", "/b"), (31000, "s2", "/a")]
      []) :=
  heartbeat_upsert_unique
    [(0, "s1", "/a"), (5000, "s1", "/a"), (31000, "s1", "/b"), (31000, "s2", "/a")]
    [] (by decide)

/-- Every record in the store after a `heartbeat` call is either an original
record or carries `lastSeen = now`. -/
theorem mem_heartbeat (now : Int) (s p : String) (st : List SessionRecord)
    (x : SessionRecord) (hx : x ∈ heartbeat now s p st) :
    x ∈ st ∨ x.lastSeen = now := by
  rcases heartbeat_cases now s p st with ⟨ex, hf, hg, hb⟩ | ⟨ex, hf, hg, hb⟩ | ⟨hf, hb⟩
  · rw [hb] at hx; exact Or.inl hx
  · rw [hb] at hx
    rcases mem_patchFirst st s _ x hx with h1 | h1
    · exact Or.inl h1
    · right; rw [h1]
  · rw [hb] at hx
    rcases List.mem_append.mp hx with h1 | h1
    · exact Or.inl h1
    · right; rw [List.mem_singleton.mp h1]

/-- One `heartbeat` call never lowers the `lastSeen` any session's lookup
returns, provided the call's clock is not behind that value. -/
theorem lookupLastSeen_heartbeat_mono (now : Int) (s p sid : String)
    (st : List SessionRecord) (v : Int)
    (hv : lookupLastSeen sid st = some v) (hle : v ≤ now) :
    ∃ v', lookupLastSeen sid (heartbeat now s p st) = some v' ∧ v ≤ v' := by
  cases hno : heartbeatIsNoOp now s p st with
  | true =>
    exact ⟨v, by rw [heartbeat_noop_eq now s p st hno]; exact hv, le_refl v⟩
  | false =>
    by_cases hsid : sid = s
    · subst hsid
      refine ⟨now, ?_, hle⟩
      rw [lookupLastSeen, findSession_heartbeat_self now sid p st hno]
      rfl
    · refine ⟨v, ?_, le_refl v⟩
      rcases heartbeat_cases now s p st with ⟨ex, hf, hg, hb⟩ | ⟨ex, hf, hg, hb⟩ | ⟨hf, hb⟩
      · rw [hb]; exact hv
      · rw [hb]
        have hsid' : ex.sessionId = s := by
          have := List.find?_some hf
          simpa using this
        rw [lookupLastSeen,
          findSession_patchFirst_ne st s sid _ hsid (by simpa using hsid')]
        exact hv
      · rw [hb]
        rw [lookupLastSeen] at hv ⊢
        unfold findSession at hv ⊢
        rw [List.find?_append]
        cases hfs : List.find? (fun r => r.sessionId == sid) st with
        | none => rw [hfs] at hv; exact absurd hv (by simp)
        | some r => rw [hfs] at hv; simpa using hv

/-- C10: Monotone lastSeen — every `heartbeat` call either leaves the store
unchanged or writes `lastSeen = now` together with `currentPath` in the same
record; consequently, over any sequence of calls whose clock values are
non-decreasing and not behind the `lastSeen` values already stored, the
`lastSeen` a session's lookup returns never decreases. -/
theorem heartbeat_monotone_lastSeen (calls : List (Int × String × String))
    (st : List SessionRecord) (sid : String) (v : Int)
    (hsorted : List.Pairwise (fun a b => a.1 ≤ b.1) calls)
    (hinit : ∀ c ∈ calls, ∀ r ∈ st, r.lastSeen ≤ c.1)
    (hv : lookupLastSeen sid st = some v) :
    (∃ v', lookupLastSeen sid (runHeartbeats calls st) = some v' ∧ v ≤ v')
    ∧ (∀ now s p st', heartbeat now s p st' = st'
        ∨ (findSession s (heartbeat now s p st')).map
            (fun r => (r.currentPath, r.lastSeen)) = some (p, now)) := by
  constructor
  · induction calls generalizing st v with
    | nil => exact ⟨v, hv, le_refl v⟩
    | cons c rest ih =>
      rw [List.pairwise_cons] at hsorted
      obtain ⟨hc, hrest⟩ := hsorted
      have hvr : ∃ r, findSession sid st = some r ∧ r.lastSeen = v := by
        rw [lookupLastSeen] at hv
        cases hfs : findSession sid st with
        | none => rw [hfs] at hv; exact absurd hv (by simp)
        | some r =>
          rw [hfs] at hv
          exact ⟨r, rfl, by simpa using hv⟩
      obtain ⟨r, hr, hrv⟩ := hvr
      have hrmem : r ∈ st := List.mem_of_find?_eq_some hr
      have hle : v ≤ c.1 := by
        rw [← hrv]
        exact hinit c (List.mem_cons_self c rest) r hrmem
      obtain ⟨v1, hv1, hvv1⟩ :=
        lookupLastSeen_heartbeat_mono c.1 c.2.1 c.2.2 sid st v hv hle
      have hinit' : ∀ c' ∈ rest, ∀ r' ∈ heartbeat c.1 c.2.1 c.2.2 st,
          r'.lastSeen ≤ c'.1 := by
        intro c' hc' r' hr'
        rcases mem_heartbeat c.1 c.2.1 c.2.2 st r' hr' with h1 | h1
        · exact hinit c' (List.mem_cons_of_mem _ hc') r' h1
        · rw [h1]; exact hc c' hc'
      obtain ⟨v', hv', hvv'⟩ := ih (heartbeat c.1 c.2.1 c.2.2 st) v1 hrest hinit' hv1
      exact ⟨v', hv', le_trans hvv1 hvv'⟩
  · intro now s p st'
    cases hno : heartbeatIsNoOp now s p st' with
    | true => exact Or.inl (heartbeat_noop_eq now s p st' hno)
    | false =>
      right
      rw [findSession_heartbeat_self now s p st' hno]
      rfl

/-- C10 witness: with heartbeats of sessions `s1`, `s2` at times 0, 15 and
40 seconds against a store holding `s1` with `lastSeen = 0`, the lookup of
`s1` never decreases below its initial value `0`. -/
theorem heartbeat_monotone_lastSeen_witness :
    (∃ v', lookupLastSeen "s1"
        (runHeartbeats [(0, "s2", "/a"), (15000, "s1", "/b"), (40000, "s1", "/b")]
          [⟨"s1", "/a", 0⟩]) = some v' ∧ (0 : Int) ≤ v')
    ∧ (∀ now s p st', heartbeat now s p st' = st'
        ∨ (findSession s (heartbeat now s p st')).map
            (fun r => (r.currentPath, r.lastSeen)) = some (p, now)) :=
  heartbeat_monotone_lastSeen
    [(0, "s2", "/a"), (15000, "s1", "/b"), (40000, "s1", "/b")]
    [⟨"s1", "/a", 0⟩] "s1" 0 (by decide) (by decide) (by decide)

/-- C4: Reaper correctness — one run of `cleanupStaleSessions` at `now`
removes exactly the records with `lastSeen` strictly below
`now - SESSION_TIMEOUT_MS`; every other record stays in the store unchanged,
and a second run on the result changes nothing. -/
theorem reaper_correct (now : Int) (st : List SessionRecord) :
    (∀ r, r ∈ cleanupStaleSessions now st
      ↔ (r ∈ st ∧ ¬(r.lastSeen < now - SESSION_TIMEOUT_MS)))
    ∧ cleanupStaleSessions now (cleanupStaleSessions now st)
        = cleanupStaleSessions now st := by
  constructor
  · intro r
    simp [cleanupStaleSessions, List.mem_filter]
  · apply List.filter_eq_self.mpr
    intro r hr
    exact (List.mem_filter.mp hr).2

/-- C4 witness: with the timeout cutoff at `80000`, the record last seen at
`0` is deleted, the one last seen at `150000` survives, and re-running the
reaper is a no-op. -/
theorem reaper_correct_witness :
    (⟨"s2", "/b", 150000⟩ ∈ cleanupStaleSessions 200000
        [⟨"s1", "/a", 0⟩, ⟨"s2", "/b", 150000⟩]
      ↔ ((⟨"s2", "/b", 150000⟩ : SessionRecord)
            ∈ [(⟨"s1", "/a", 0⟩ : SessionRecord), ⟨"s2", "/b", 150000⟩]
          ∧ ¬((150000 : Int) < 200000 - SESSION_TIMEOUT_MS)))
    ∧ cleanupStaleSessions 200000
        (cleanupStaleSessions 200000 [⟨"s1", "/a", 0⟩, ⟨"s2", "/b", 150000⟩])
      = cleanupStaleSessions 200000 [⟨"s1", "/a", 0⟩, ⟨"s2", "/b", 150000⟩] :=
  ⟨(reaper_correct 200000 [⟨"s1", "/a", 0⟩, ⟨"s2", "/b", 150000⟩]).1 ⟨"s2", "/b", 150000⟩,
   (reaper_correct 200000 [⟨"s1", "/a", 0⟩, ⟨"s2", "/b", 150000⟩]).2⟩

/-- C5: Reaper partial-failure independence — in a run where individual
deletes may fail, every stale record whose own delete does not fail is
removed, regardless of failures on other records; with no failures the run
agrees with the plain reaper. -/
theorem reaper_partial_failure_independent (now : Int)
    (deleteFails : SessionRecord → Bool) (st : List SessionRecord) :
    (∀ r ∈ st, r.lastSeen < now - SESSION_TIMEOUT_MS → deleteFails r = false →
      r ∉ cleanupStaleSessionsPartial now deleteFails st)
    ∧ cleanupStaleSessionsPartial now (fun _ => false) st
        = cleanupStaleSessions now st := by
  constructor
  · intro r _ hstale hfail hmem
    have := (List.mem_filter.mp hmem).2
    simp [hstale, hfail] at this
  · simp [cleanupStaleSessionsPartial, cleanupStaleSessions]

/-- C5 witness: both stale records `s1` and `s3` qualify; the delete of `s1`
fails, yet `s3` is still removed. -/
theorem reaper_partial_failure_independent_witness :
    (⟨"s3", "/c", 1000⟩ : SessionRecord) ∉
      cleanupStaleSessionsPartial 200000 (fun r => r.sessionId == "s1")
        [⟨"s1", "/a", 0⟩, ⟨"s2", "/b", 150000⟩, ⟨"s3", "/c", 1000⟩] :=
  (reaper_partial_failure_independent 200000 (fun r => r.sessionId == "s1")
      [⟨"s1", "/a", 0⟩, ⟨"s2", "/b", 150000⟩, ⟨"s3", "/c", 1000⟩]).1
    ⟨"s3", "/c", 1000⟩ (by decide) (by decide) (by decide)

/-- C7: Client heartbeat guard — with a usable session id, `sendHeartbeat`
issues a network call iff no call is pending and it is not the case that the
path matches the last-sent path with `now - lastSentAt` under the debounce
window; when it issues, it sets pending and records `lastSentAt = now`,
`lastSentPath = path`; when it skips, the refs are untouched; and completion
clears pending identically on success and on failure. -/
theorem heartbeat_client_guard (now : Int) (sid : Option String) (p : String)
    (st : HeartbeatState) (hsid : isFalsyStr sid = false) :
    ((sendHeartbeat now sid p st).1 = true
      ↔ (st.isHeartbeatPending = false
          ∧ ¬(st.lastHeartbeatPath = some p
              ∧ now - st.lastHeartbeatTime < HEARTBEAT_DEBOUNCE_MS)))
    ∧ ((sendHeartbeat now sid p st).1 = true →
        (sendHeartbeat now sid p st).2 = ⟨true, now, some p⟩)
    ∧ ((sendHeartbeat now sid p st).1 = false →
        (sendHeartbeat now sid p st).2 = st)
    ∧ (∀ success st', (finishHeartbeat success st').isHeartbeatPending = false)
    ∧ finishHeartbeat true (sendHeartbeat now sid p st).2
        = finishHeartbeat false (sendHeartbeat now sid p st).2 := by
  unfold sendHeartbeat
  rw [if_neg (by simp [hsid])]
  by_cases hp : st.isHeartbeatPending
  · rw [if_pos hp]
    refine ⟨by simp [hp], by simp, by simp, fun _ _ => rfl, rfl⟩
  · rw [if_neg hp]
    by_cases hd : st.lastHeartbeatPath = some p
        ∧ now - st.lastHeartbeatTime < HEARTBEAT_DEBOUNCE_MS
    · rw [if_pos (by simp [hd.1, hd.2])]
      refine ⟨by simp [hd], by simp, by simp, fun _ _ => rfl, rfl⟩
    · rw [if_neg ?_]
      · refine ⟨by simp [hp, hd], by simp, by simp, fun _ _ => rfl, rfl⟩
      · intro hcontr
        rw [Bool.and_eq_true] at hcontr
        exact hd ⟨by simpa using hcontr.1, by simpa using hcontr.2⟩

/-- C7 witness: fresh refs (nothing pending, no path sent) with a valid
session id issue the call. -/
theorem heartbeat_client_guard_witness :
    (sendHeartbeat 0 (some "s1") "/a" ⟨false, 0, none⟩).1 = true :=
  (heartbeat_client_guard 0 (some "s1") "/a" ⟨false, 0, none⟩ (by decide)).1.mpr
    (by decide)

/-- C9: Session identity stability — with storage available, the first
`getSessionId` call stores and returns the freshly generated id, any call
with a (non-empty) stored id returns exactly it without modifying storage,
and two successive calls return the same string. -/
theorem getSessionId_stable (fresh fresh2 v : String) (hf : fresh ≠ "")
    (hv : v ≠ "") :
    getSessionId none fresh = (fresh, some fresh)
    ∧ getSessionId (some v) fresh2 = (v, some v)
    ∧ getSessionId (getSessionId none fresh).2 fresh2
        = ((getSessionId none fresh).1, (getSessionId none fresh).2) := by
  refine ⟨rfl, ?_, ?_⟩
  · show (if (v == "") = true then (fresh2, some fresh2) else (v, some v)) = (v, some v)
    rw [if_neg (by simpa using hv)]
  · show (if (fresh == "") = true then (fresh2, some fresh2) else (fresh, some fresh))
      = (fresh, some fresh)
    rw [if_neg (by simpa using hf)]

/-- C9 witness: first call stores `"uuid-1"`; the next call returns it
unchanged. -/
theorem getSessionId_stable_witness :
    getSessionId none "uuid-1" = ("uuid-1", some "uuid-1")
    ∧ getSessionId (some "uuid-7") "uuid-2" = ("uuid-7", some "uuid-7")
    ∧ getSessionId (getSessionId none "uuid-1").2 "uuid-2"
        = ((getSessionId none "uuid-1").1, (getSessionId none "uuid-1").2) :=
  getSessionId_stable "uuid-1" "uuid-2" "uuid-7" (by decide) (by decide)
